import Mathlib

/-!
Verification of the Rational Function Analysis & Quiz Synthesis Engine
(`streamlit_app.py`).

The engine is shallowly embedded:
* Python numbers (ints and floats) are modelled exactly as rationals `ℚ`;
  the runtime distinction between an `int` and a `float` result — visible
  to the user because Python renders `0` versus `0.0` — is kept by the
  tagged type `PyNum`.
* Python string formatting of numbers (`str`/f-strings) is modelled by
  `pyIntStr`/`pyFloatStr`: decimal rendering of the integer part, exact
  for integral values (`str(2.0) = "2.0"`), injective everywhere.
* Python exceptions (`ZeroDivisionError` from `a / 0`, `IndexError` from
  indexing an empty list) are modelled by `Except PyError`.
* `x ** 0.5` (float square root) is modelled by `sqrtQ`, which is exact on
  perfect squares and nonnegative everywhere.
-/

/-! ### Decimal rendering of numbers (model of Python `str`) -/

/-- The decimal digit characters. -/
def digitChar : ℕ → Char
  | 0 => '0'
  | 1 => '1'
  | 2 => '2'
  | 3 => '3'
  | 4 => '4'
  | 5 => '5'
  | 6 => '6'
  | 7 => '7'
  | 8 => '8'
  | _ => '9'

/-- Inverse of `digitChar` on actual digits. -/
def charDigit (c : Char) : ℕ := c.toNat - 48

/-- Big-endian decimal digits of `n`, with `fuel` bounding the recursion
(`natCharsAux fuel n` is the full digit string whenever `n ≤ fuel`). -/
def natCharsAux : ℕ → ℕ → List Char
  | 0, _ => []
  | fuel + 1, n => if n = 0 then [] else natCharsAux fuel (n / 10) ++ [digitChar (n % 10)]

/-- Decimal rendering of a natural number, as Python `str` produces it. -/
def natChars (n : ℕ) : List Char := if n = 0 then ['0'] else natCharsAux n n

/-- Decimal rendering of an integer, as Python `str` produces it. -/
def intChars (n : ℤ) : List Char :=
  if n < 0 then '-' :: natChars n.natAbs else natChars n.natAbs

/-- Decoder for `natChars` (used to prove the rendering injective). -/
def natDecode (l : List Char) : ℕ := l.foldl (fun a c => 10 * a + charDigit c) 0

/-- Decoder for `intChars`. -/
def intDecode (l : List Char) : ℤ :=
  match l with
  | [] => 0
  | c :: t => if c = '-' then -(natDecode t : ℤ) else (natDecode (c :: t) : ℤ)

/-- Model of Python `str` on an `int` value. -/
def pyIntStr (n : ℤ) : String := ⟨intChars n⟩

/-- Characters of the model of Python `str` on a `float` value: integral
floats render exactly as Python does (`"2.0"`, `"-1.0"`); non-integral
values render as `num/den`, an injective stand-in for Python's decimal
float repr (no value exercised by a claim is non-integral). -/
def floatChars (q : ℚ) : List Char :=
  intChars q.num ++ (if q.den = 1 then ['.', '0'] else '/' :: natChars q.den)

/-- Model of Python `str` on a `float` value. -/
def pyFloatStr (q : ℚ) : String := ⟨floatChars q⟩

/-- A Python number as it occurs in the engine: an `int` or a `float`,
both with exact rational value. -/
inductive PyNum
  | int (n : ℤ)
  | float (q : ℚ)
deriving DecidableEq

/-- Model of Python `str` on a `PyNum`. -/
def pyStr : PyNum → String
  | .int n => pyIntStr n
  | .float q => pyFloatStr q

/-- Model of Python `+ 1` on a `PyNum` (int stays int, float stays float). -/
def pyAdd1 : PyNum → PyNum
  | .int n => .int (n + 1)
  | .float q => .float (q + 1)

/-! ### Square root model -/

/-- Integer square root (largest `k` with `k * k ≤ n`), by exhaustive
search so that it evaluates inside the kernel. -/
def natSqrt (n : ℕ) : ℕ := (((List.range (n + 1)).filter fun k => k * k ≤ n).length) - 1

/-- Models Python's `** 0.5` on a nonnegative rational: exact on perfect
squares (every discriminant exercised here), and nonnegative always. -/
def sqrtQ (q : ℚ) : ℚ := (natSqrt q.num.toNat : ℚ) / (natSqrt q.den : ℚ)

/-! ### The engine: `RationalFunction` -/

/-- The Python exceptions the engine can raise. -/
inductive PyError
  | zeroDivisionError
  | indexError
deriving DecidableEq

/-- A rational function with its derived properties, computed once at
construction (`__init__`) and cached. -/
structure RationalFunction where
  numerator : List ℚ
  denominator : List ℚ
  level : ℤ
  name : String
  vertical_asymptotes : List ℚ
  horizontal_asymptote : Option PyNum
  x_intercepts : List ℚ
  y_intercept : Option ℚ
deriving DecidableEq

/-- `RationalFunction.find_vertical_asymptotes`: roots of the denominator,
for linear and quadratic denominators only. -/
def find_vertical_asymptotes (denominator : List ℚ) : List ℚ :=
  match denominator with
  | [a, b] => if a ≠ 0 then [-b / a] else []
  | [a, b, c] =>
    if a ≠ 0 then
      let discriminant := b ^ 2 - 4 * a * c
      if discriminant ≥ 0 then
        let sqrt_disc := sqrtQ discriminant
        [(-b + sqrt_disc) / (2 * a), (-b - sqrt_disc) / (2 * a)]
      else []
    else []
  | _ => []

/-- `RationalFunction.find_horizontal_asymptote`: compares degrees.  In the
equal-degree branch Python evaluates `self.numerator[0] / self.denominator[0]`
unguarded: an empty list raises `IndexError` and a zero leading denominator
coefficient raises `ZeroDivisionError`.  The `<` branch returns the int `0`,
the `==` branch a float. -/
def find_horizontal_asymptote (numerator denominator : List ℚ) :
    Except PyError (Option PyNum) :=
  let num_degree : ℤ := numerator.length - 1
  let den_degree : ℤ := denominator.length - 1
  if num_degree < den_degree then .ok (some (.int 0))
  else if num_degree = den_degree then
    match numerator, denominator with
    | n0 :: _, d0 :: _ =>
      if d0 = 0 then .error .zeroDivisionError else .ok (some (.float (n0 / d0)))
    | _, _ => .error .indexError
  else .ok none

/-- `RationalFunction.find_x_intercepts`: root of a linear numerator only. -/
def find_x_intercepts (numerator : List ℚ) : List ℚ :=
  match numerator with
  | [a, b] => if a ≠ 0 then [-b / a] else []
  | _ => []

/-- `RationalFunction.find_y_intercept`: `numerator[-1] / denominator[-1]`
when the denominator's constant term is nonzero, else `None`.  Indexing an
empty list raises `IndexError`. -/
def find_y_intercept (numerator denominator : List ℚ) : Except PyError (Option ℚ) :=
  match denominator.getLast? with
  | none => .error .indexError
  | some dl =>
    if dl ≠ 0 then
      match numerator.getLast? with
      | none => .error .indexError
      | some nl => .ok (some (nl / dl))
    else .ok none

/-- `RationalFunction.__init__`: stores the coefficients and computes the
four derived fields, propagating any Python exception. -/
def construct (numerator denominator : List ℚ) (level : ℤ) (name : String) :
    Except PyError RationalFunction := do
  let ha ← find_horizontal_asymptote numerator denominator
  let yi ← find_y_intercept numerator denominator
  .ok { numerator := numerator
        denominator := denominator
        level := level
        name := name
        vertical_asymptotes := find_vertical_asymptotes denominator
        horizontal_asymptote := ha
        x_intercepts := find_x_intercepts numerator
        y_intercept := yi }

/-- `sum(coef * (x ** (len(coeffs) - 1 - i)) for i, coef in enumerate(coeffs))`. -/
def evaluate_polynomial (coeffs : List ℚ) (x : ℚ) : ℚ :=
  (coeffs.enum.map fun p => p.2 * x ^ (coeffs.length - 1 - p.1)).sum

/-- The result of evaluating at one point: a finite value, `np.inf`, or `-np.inf`. -/
inductive Val
  | fin (q : ℚ)
  | inf
  | ninf
deriving DecidableEq

/-- Scalar branch of `RationalFunction.evaluate`. -/
def evaluate_scalar (f : RationalFunction) (x : ℚ) : Val :=
  let num_val := evaluate_polynomial f.numerator x
  let den_val := evaluate_polynomial f.denominator x
  if |den_val| < 1 / 10 ^ 10 then (if den_val > 0 then .inf else .ninf)
  else .fin (num_val / den_val)

/-- Argument of `RationalFunction.evaluate`: a scalar or a finite sequence. -/
inductive EvalArg
  | scalar (x : ℚ)
  | vec (xs : List ℚ)
deriving DecidableEq

/-- Result of `RationalFunction.evaluate`: matches the argument's shape. -/
inductive EvalRes
  | scalar (v : Val)
  | vec (vs : List Val)
deriving DecidableEq

/-- `RationalFunction.evaluate`: on a sequence, maps the scalar evaluation
over the elements (the Python method recurses element-wise); on a scalar,
evaluates directly. -/
def RationalFunction.evaluate (f : RationalFunction) : EvalArg → EvalRes
  | .vec xs => .vec (xs.map fun xi => evaluate_scalar f xi)
  | .scalar x => .scalar (evaluate_scalar f x)

/-- Model of the coefficient rendering inside `format_polynomial`:
`int(coef) if coef == int(coef) else coef` under `str`. -/
def coefStr (coef : ℚ) : String :=
  if coef.den = 1 then pyIntStr coef.num else pyFloatStr coef

/-- Model of Python `term.startswith('-')` (all terms are ASCII). -/
def startsWithDash (s : String) : Bool :=
  match s.data with
  | [] => false
  | c :: _ => c = '-'

/-- Model of Python `term[1:]` (all terms are ASCII). -/
def strTail (s : String) : String := ⟨s.data.drop 1⟩

/-- `RationalFunction.format_polynomial`: canonical polynomial formatter. -/
def format_polynomial (coeffs : List ℚ) : String :=
  if coeffs = [] then "0"
  else
    let degree := coeffs.length - 1
    let terms := coeffs.enum.filterMap fun p =>
      if p.2 = 0 then none
      else
        let power := degree - p.1
        if power = 0 then some (coefStr p.2)
        else if power = 1 then
          some (if p.2 = 1 then "x" else if p.2 = -1 then "-x" else coefStr p.2 ++ "x")
        else
          some (if p.2 = 1 then "x^" ++ String.mk (natChars power)
                else if p.2 = -1 then "-x^" ++ String.mk (natChars power)
                else coefStr p.2 ++ "x^" ++ String.mk (natChars power))
    match terms with
    | [] => "0"
    | t :: ts =>
      ts.foldl (fun result term =>
        if startsWithDash term then result ++ " - " ++ strTail term
        else result ++ " + " ++ term) t

/-- `RationalFunction.get_equation`. -/
def get_equation (f : RationalFunction) : String :=
  "(" ++ format_polynomial f.numerator ++ ") / (" ++ format_polynomial f.denominator ++ ")"

/-- A quiz question. -/
structure Question where
  function : RationalFunction
  type : String
  question_text : String
  options : List String
  correct_answer : String
  explanation : String
  points : ℕ
deriving DecidableEq

/-- The single-vertical-asymptote question built by `create_questions`. -/
def va_single_question (f : RationalFunction) (va : ℚ) : Question :=
  { function := f
    type := "vertical_asymptote"
    question_text := "What is the vertical asymptote of " ++ f.name ++ "?"
    options := ["x = " ++ pyFloatStr va, "x = " ++ pyFloatStr (va + 1),
                "y = " ++ pyFloatStr va, "No vertical asymptote"]
    correct_answer := "x = " ++ pyFloatStr va
    explanation := "The vertical asymptote occurs where the denominator equals zero."
    points := 100 }

/-- The two-vertical-asymptote question built by `create_questions`
(`va1`, `va2` are the sorted asymptotes). -/
def va_double_question (f : RationalFunction) (va1 va2 : ℚ) : Question :=
  { function := f
    type := "vertical_asymptote"
    question_text := "What are the vertical asymptotes of " ++ f.name ++ "?"
    options := ["x = " ++ pyFloatStr va1 ++ " and x = " ++ pyFloatStr va2,
                "x = " ++ pyFloatStr va1, "x = " ++ pyFloatStr va2,
                "No vertical asymptotes"]
    correct_answer := "x = " ++ pyFloatStr va1 ++ " and x = " ++ pyFloatStr va2
    explanation := "The vertical asymptotes occur where the denominator equals zero."
    points := 150 }

/-- The horizontal-asymptote question built by `create_questions`. -/
def ha_question (f : RationalFunction) (ha : PyNum) : Question :=
  { function := f
    type := "horizontal_asymptote"
    question_text := "What is the horizontal asymptote of " ++ f.name ++ "?"
    options := ["y = " ++ pyStr ha, "y = " ++ pyStr (pyAdd1 ha),
                "y = 0", "No horizontal asymptote"]
    correct_answer := "y = " ++ pyStr ha
    explanation := "Compare the degrees of numerator and denominator to find the horizontal asymptote."
    points := 100 }

/-- The x-intercept question built by `create_questions`. -/
def xi_question (f : RationalFunction) (xi : ℚ) : Question :=
  { function := f
    type := "x_intercept"
    question_text := "What is the x-intercept of " ++ f.name ++ "?"
    options := ["x = " ++ pyFloatStr xi, "x = " ++ pyFloatStr (xi + 1),
                "x = 0", "No x-intercept"]
    correct_answer := "x = " ++ pyFloatStr xi
    explanation := "X-intercepts occur where the numerator equals zero."
    points := 100 }

/-- `create_questions`: one question per derivable property, in the fixed
order vertical asymptote, horizontal asymptote, x-intercept.  The
two-asymptote branch unpacks `sorted(vertical_asymptotes)` into exactly two
values (the constructor never yields more; the impossible shapes fall back
to no question). -/
def create_questions (f : RationalFunction) : List Question :=
  (match f.vertical_asymptotes with
   | [] => []
   | va :: _ =>
     if f.vertical_asymptotes.length = 1 then [va_single_question f va]
     else
       match f.vertical_asymptotes.insertionSort (· ≤ ·) with
       | [va1, va2] => [va_double_question f va1 va2]
       | _ => [])
  ++ (match f.horizontal_asymptote with
      | none => []
      | some ha => [ha_question f ha])
  ++ (match f.x_intercepts with
      | [] => []
      | xi :: _ => [xi_question f xi])

instance {ε α : Type} [DecidableEq ε] [DecidableEq α] : DecidableEq (Except ε α)
  | .error a, .error b =>
    if h : a = b then .isTrue (by rw [h]) else .isFalse (fun e => h (by injection e))
  | .error _, .ok _ => .isFalse (fun e => Except.noConfusion e)
  | .ok _, .error _ => .isFalse (fun e => Except.noConfusion e)
  | .ok a, .ok b =>
    if h : a = b then .isTrue (by rw [h]) else .isFalse (fun e => h (by injection e))

/-! ### Injectivity of the number rendering -/

theorem charDigit_digitChar (d : ℕ) (hd : d < 10) : charDigit (digitChar d) = d := by
  interval_cases d <;> decide

theorem digit_not_special (d : ℕ) (hd : d < 10) :
    digitChar d ≠ '-' ∧ digitChar d ≠ '.' ∧ digitChar d ≠ '/' := by
  interval_cases d <;> exact ⟨by decide, by decide, by decide⟩

theorem natCharsAux_chars (fuel : ℕ) :
    ∀ n, ∀ c ∈ natCharsAux fuel n, ∃ d, d < 10 ∧ c = digitChar d := by
  induction fuel with
  | zero => intro n c hc; simp [natCharsAux] at hc
  | succ f ih =>
    intro n c hc
    rw [natCharsAux] at hc
    by_cases h0 : n = 0
    · simp [h0] at hc
    · rw [if_neg h0] at hc
      rcases List.mem_append.mp hc with h | h
      · exact ih _ c h
      · rcases List.mem_singleton.mp h with rfl
        exact ⟨n % 10, Nat.mod_lt _ (by norm_num), rfl⟩

theorem natChars_chars (n : ℕ) : ∀ c ∈ natChars n, ∃ d, d < 10 ∧ c = digitChar d := by
  intro c hc
  unfold natChars at hc
  by_cases h0 : n = 0
  · rw [if_pos h0] at hc
    rcases List.mem_singleton.mp hc with rfl
    exact ⟨0, by norm_num, rfl⟩
  · rw [if_neg h0] at hc
    exact natCharsAux_chars n n c hc

theorem natChars_ne_nil (n : ℕ) : natChars n ≠ [] := by
  unfold natChars
  by_cases h0 : n = 0
  · simp [h0]
  · rw [if_neg h0]
    cases n with
    | zero => exact absurd rfl h0
    | succ m =>
      rw [natCharsAux, if_neg h0]
      simp

theorem natDecode_aux (fuel : ℕ) :
    ∀ n a, n ≤ fuel →
      (natCharsAux fuel n).foldl (fun x c => 10 * x + charDigit c) a =
        a * 10 ^ (natCharsAux fuel n).length + n := by
  induction fuel with
  | zero =>
    intro n a h
    have : n = 0 := Nat.le_zero.mp h
    subst this
    simp [natCharsAux]
  | succ f ih =>
    intro n a h
    rw [natCharsAux]
    by_cases h0 : n = 0
    · simp [h0]
    · rw [if_neg h0]
      rw [List.foldl_append]
      rw [ih (n / 10) a (by omega)]
      rw [List.foldl_cons, List.foldl_nil]
      rw [charDigit_digitChar _ (Nat.mod_lt _ (by norm_num))]
      rw [List.length_append, List.length_singleton, pow_succ, ← mul_assoc]
      generalize a * 10 ^ (natCharsAux f (n / 10)).length = M
      omega

theorem natDecode_natChars (n : ℕ) : natDecode (natChars n) = n := by
  unfold natChars natDecode
  by_cases h0 : n = 0
  · simp [h0, List.foldl, charDigit]
  · rw [if_neg h0, natDecode_aux n n 0 (Nat.le_refl n)]
    simp

theorem intDecode_intChars (n : ℤ) : intDecode (intChars n) = n := by
  unfold intChars
  by_cases hn : n < 0
  · rw [if_pos hn]
    show intDecode ('-' :: natChars n.natAbs) = n
    rw [intDecode, if_pos rfl, natDecode_natChars]
    omega
  · rw [if_neg hn]
    rcases hl : natChars n.natAbs with _ | ⟨c, t⟩
    · exact absurd hl (natChars_ne_nil _)
    · have hc : c ≠ '-' := by
        have hmem : c ∈ natChars n.natAbs := by rw [hl]; exact List.mem_cons_self c t
        rcases natChars_chars _ c hmem with ⟨d, hd, rfl⟩
        exact (digit_not_special d hd).1
      rw [intDecode, if_neg hc, ← hl, natDecode_natChars]
      omega

/-- Character-class fact: every character of `intChars` is a dash or a digit,
hence never `'.'` or `'/'`. -/
theorem intChars_not_special (n : ℤ) :
    ∀ c ∈ intChars n, c ≠ '.' ∧ c ≠ '/' := by
  intro c hc
  unfold intChars at hc
  have hdig : ∀ c, c ∈ natChars n.natAbs → c ≠ '.' ∧ c ≠ '/' := by
    intro c hc
    rcases natChars_chars _ c hc with ⟨d, hd, rfl⟩
    exact ⟨(digit_not_special d hd).2.1, (digit_not_special d hd).2.2⟩
  by_cases hn : n < 0
  · rw [if_pos hn] at hc
    rcases List.mem_cons.mp hc with rfl | h
    · exact ⟨by decide, by decide⟩
    · exact hdig c h
  · rw [if_neg hn] at hc
    exact hdig c hc

theorem intChars_ne_nil (n : ℤ) : intChars n ≠ [] := by
  unfold intChars
  by_cases hn : n < 0
  · simp [hn]
  · rw [if_neg hn]; exact natChars_ne_nil _

/-- `notSep c` means `c` is not one of the separators used by `floatChars`. -/
def notSep (c : Char) : Bool := !(c == '.' || c == '/')

theorem takeWhile_split (a : List Char) (s : Char) (r : List Char)
    (ha : ∀ c ∈ a, notSep c = true) (hs : notSep s = false) :
    (a ++ s :: r).takeWhile notSep = a ∧ (a ++ s :: r).dropWhile notSep = s :: r := by
  induction a with
  | nil => simp [List.takeWhile_cons, List.dropWhile_cons, hs]
  | cons c a ih =>
    have hc : notSep c = true := ha c (List.mem_cons_self c a)
    have hrest : ∀ x ∈ a, notSep x = true := fun x hx => ha x (List.mem_cons_of_mem c hx)
    rcases ih hrest with ⟨h1, h2⟩
    constructor
    · rw [List.cons_append, List.takeWhile_cons, if_pos hc, h1]
    · rw [List.cons_append, List.dropWhile_cons, if_pos hc, h2]

/-- Decoder for `floatChars` (used to prove `pyFloatStr` injective). -/
def ratDecode (l : List Char) : ℚ :=
  let rest := l.dropWhile notSep
  let pre := l.takeWhile notSep
  if rest.headI = '.' then (intDecode pre : ℚ)
  else if rest.headI = '/' then (intDecode pre : ℚ) / (natDecode rest.tail : ℚ)
  else 0

theorem intChars_notSep (n : ℤ) : ∀ c ∈ intChars n, notSep c = true := by
  intro c hc
  rcases intChars_not_special n c hc with ⟨h1, h2⟩
  unfold notSep
  simp [h1, h2]

theorem ratDecode_floatChars (q : ℚ) : ratDecode (floatChars q) = q := by
  unfold floatChars ratDecode
  by_cases hd : q.den = 1
  · rw [if_pos hd]
    rcases takeWhile_split (intChars q.num) '.' ['0'] (intChars_notSep q.num) (by decide)
      with ⟨h1, h2⟩
    rw [h1, h2]
    simp only [List.headI, intDecode_intChars, if_pos rfl]
    have := Rat.num_div_den q
    rw [hd] at this
    simpa using this
  · rw [if_neg hd]
    rcases takeWhile_split (intChars q.num) '/' (natChars q.den) (intChars_notSep q.num)
      (by decide) with ⟨h1, h2⟩
    rw [h1, h2]
    simp only [List.headI, List.tail_cons, intDecode_intChars, natDecode_natChars]
    simpa using Rat.num_div_den q

theorem pyFloatStr_inj {a b : ℚ} (h : pyFloatStr a = pyFloatStr b) : a = b := by
  have hdata : floatChars a = floatChars b := congrArg String.data h
  have := congrArg ratDecode hdata
  rwa [ratDecode_floatChars, ratDecode_floatChars] at this

theorem floatChars_length (q : ℚ) : 3 ≤ (floatChars q).length := by
  unfold floatChars
  have h1 : 1 ≤ (intChars q.num).length :=
    List.length_pos.mpr (intChars_ne_nil q.num)
  by_cases hd : q.den = 1
  · rw [if_pos hd, List.length_append]
    simp only [List.length_cons, List.length_singleton]
    omega
  · rw [if_neg hd, List.length_append]
    have h2 : 1 ≤ (natChars q.den).length := List.length_pos.mpr (natChars_ne_nil _)
    simp only [List.length_cons]
    omega

/-! ### String inequality toolkit -/

theorem str_data_append (a b : String) : (a ++ b).data = a.data ++ b.data := rfl

theorem str_head_ne {a b : String} {c₁ c₂ : Char} {t₁ t₂ : List Char}
    (h₁ : a.data = c₁ :: t₁) (h₂ : b.data = c₂ :: t₂) (h : c₁ ≠ c₂) : a ≠ b := by
  intro e
  rw [e, h₂] at h₁
  exact h (List.head_eq_of_cons_eq h₁.symm)

theorem str_len_ne {a b : String} (h : a.data.length ≠ b.data.length) : a ≠ b := by
  intro e
  rw [e] at h
  exact h rfl

theorem str_append_left_cancel {p a b : String} (h : p ++ a = p ++ b) : a = b := by
  have hd := congrArg String.data h
  rw [str_data_append, str_data_append] at hd
  exact String.ext (List.append_cancel_left hd)

theorem pyFloatStr_data (q : ℚ) : (pyFloatStr q).data = floatChars q := rfl

theorem pyFloatStr_ne_zero_str (q : ℚ) : pyFloatStr q ≠ "0" := by
  apply str_len_ne
  rw [pyFloatStr_data]
  have := floatChars_length q
  intro e
  rw [e] at this
  simp at this

theorem pyFloatStr_ne_one_str (q : ℚ) : pyFloatStr q ≠ "1" := by
  apply str_len_ne
  rw [pyFloatStr_data]
  have := floatChars_length q
  intro e
  rw [e] at this
  simp at this

/-- The four options of a question with pairwise-distinct entries: the
correct answer (always listed first by `create_questions`) occurs exactly
once, and the options are 4 distinct strings. -/
theorem count_options (o₁ o₂ o₃ o₄ : String) (h12 : o₁ ≠ o₂) (h13 : o₁ ≠ o₃)
    (h14 : o₁ ≠ o₄) (h23 : o₂ ≠ o₃) (h24 : o₂ ≠ o₄) (h34 : o₃ ≠ o₄) :
    ([o₁, o₂, o₃, o₄] : List String).length = 4 ∧ o₁ ∈ [o₁, o₂, o₃, o₄] ∧
      ([o₁, o₂, o₃, o₄] : List String).count o₁ = 1 ∧
      ([o₁, o₂, o₃, o₄] : List String).Nodup := by
  refine ⟨rfl, List.mem_cons_self _ _, ?_, ?_⟩
  · have e2 : (o₂ == o₁) = false := beq_eq_false_iff_ne.mpr (Ne.symm h12)
    have e3 : (o₃ == o₁) = false := beq_eq_false_iff_ne.mpr (Ne.symm h13)
    have e4 : (o₄ == o₁) = false := beq_eq_false_iff_ne.mpr (Ne.symm h14)
    simp [List.count_cons, e2, e3, e4]
  · simp [h12, h13, h14, h23, h24, h34]

/-! ### Inversion lemmas for the constructor -/

theorem construct_fields {num den : List ℚ} {l : ℤ} {n : String} {F : RationalFunction}
    (h : construct num den l n = .ok F) :
    F.numerator = num ∧ F.denominator = den ∧
      F.vertical_asymptotes = find_vertical_asymptotes den ∧
      find_horizontal_asymptote num den = .ok F.horizontal_asymptote ∧
      F.x_intercepts = find_x_intercepts num ∧
      find_y_intercept num den = .ok F.y_intercept := by
  unfold construct at h
  cases hha : find_horizontal_asymptote num den with
  | error e => rw [hha] at h; simp [Bind.bind, Except.bind] at h
  | ok ha =>
    rw [hha] at h
    cases hyi : find_y_intercept num den with
    | error e => rw [hyi] at h; simp [Bind.bind, Except.bind] at h
    | ok yi =>
      rw [hyi] at h
      simp only [Bind.bind, Except.bind, Except.ok.injEq] at h
      rw [← h]
      exact ⟨rfl, rfl, rfl, rfl, rfl, rfl⟩

theorem find_va_length (den : List ℚ) :
    (find_vertical_asymptotes den).length = 0 ∨
      (find_vertical_asymptotes den).length = 1 ∨
      (find_vertical_asymptotes den).length = 2 := by
  rcases den with _ | ⟨a, _ | ⟨b, _ | ⟨c, _ | ⟨d, rest⟩⟩⟩⟩
  · simp [find_vertical_asymptotes]
  · simp [find_vertical_asymptotes]
  · simp only [find_vertical_asymptotes]
    split_ifs <;> simp
  · simp only [find_vertical_asymptotes]
    split_ifs <;> simp
  · simp [find_vertical_asymptotes]

theorem find_ha_shape {num den : List ℚ} {o : Option PyNum}
    (h : find_horizontal_asymptote num den = .ok o) :
    o = none ∨ o = some (.int 0) ∨ ∃ r, o = some (.float r) := by
  unfold find_horizontal_asymptote at h
  split at h
  · dsimp only at h
    split at h
    · rw [Except.ok.injEq] at h
      right; left; exact h.symm
    · split at h
      · split at h
        · simp at h
        · rw [Except.ok.injEq] at h
          right; right; exact ⟨_, h.symm⟩
      · rw [Except.ok.injEq] at h
        left; exact h.symm
  · dsimp only at h
    split at h
    · rw [Except.ok.injEq] at h
      right; left; exact h.symm
    · split at h
      · simp at h
      · rw [Except.ok.injEq] at h
        left; exact h.symm

theorem sqrtQ_nonneg (q : ℚ) : 0 ≤ sqrtQ q := by
  unfold sqrtQ
  positivity

/-- Every question produced by `create_questions` is one of the four
question shapes, with the side conditions of its branch. -/
theorem create_questions_cases {F : RationalFunction} {q : Question}
    (hq : q ∈ create_questions F) :
    (∃ va rest, F.vertical_asymptotes = va :: rest ∧
      F.vertical_asymptotes.length = 1 ∧ q = va_single_question F va) ∨
    (∃ va1 va2, F.vertical_asymptotes.insertionSort (· ≤ ·) = [va1, va2] ∧
      F.vertical_asymptotes ≠ [] ∧ F.vertical_asymptotes.length ≠ 1 ∧
      q = va_double_question F va1 va2) ∨
    (∃ h, F.horizontal_asymptote = some h ∧ q = ha_question F h) ∨
    (∃ xi rest, F.x_intercepts = xi :: rest ∧ q = xi_question F xi) := by
  unfold create_questions at hq
  rcases List.mem_append.mp hq with hm | hm
  · rcases List.mem_append.mp hm with hva | hha
    · -- vertical-asymptote block
      rcases hvas : F.vertical_asymptotes with _ | ⟨va, rest⟩
      · rw [hvas] at hva
        simp at hva
      · rw [hvas] at hva
        simp only at hva
        by_cases hlen : F.vertical_asymptotes.length = 1
        · rw [hvas] at hlen
          rw [if_pos hlen] at hva
          left
          exact ⟨va, rest, rfl, hlen, List.mem_singleton.mp hva⟩
        · rw [hvas] at hlen
          rw [if_neg hlen] at hva
          rcases hsort : (va :: rest).insertionSort (· ≤ ·) with _ | ⟨v1, _ | ⟨v2, _ | _⟩⟩
          all_goals rw [hsort] at hva
          · simp at hva
          · simp at hva
          · right; left
            exact ⟨v1, v2, rfl, by simp, hlen, List.mem_singleton.mp hva⟩
          · simp at hva
    · -- horizontal-asymptote block
      rcases hha2 : F.horizontal_asymptote with _ | h
      · rw [hha2] at hha
        simp at hha
      · rw [hha2] at hha
        right; right; left
        exact ⟨h, rfl, List.mem_singleton.mp hha⟩
  · -- x-intercept block
    rcases hxi : F.x_intercepts with _ | ⟨xi, rest⟩
    · rw [hxi] at hm
      simp at hm
    · rw [hxi] at hm
      right; right; right
      exact ⟨xi, rest, rfl, List.mem_singleton.mp hm⟩

/-- Behaviour of `find_horizontal_asymptote` in terms of the degree
comparison, whenever it does not raise. -/
theorem find_ha_spec {num den : List ℚ} {o : Option PyNum}
    (h : find_horizontal_asymptote num den = .ok o) :
    ((num.length : ℤ) - 1 < (den.length : ℤ) - 1 → o = some (.int 0)) ∧
    ((num.length : ℤ) - 1 = (den.length : ℤ) - 1 →
      o = some (.float (num.headI / den.headI))) ∧
    ((den.length : ℤ) - 1 < (num.length : ℤ) - 1 → o = none) := by
  unfold find_horizontal_asymptote at h
  split at h
  · -- both lists nonempty
    rename_i n0 nt d0 dt
    dsimp only at h
    split at h
    · rename_i hlt
      rw [Except.ok.injEq] at h
      exact ⟨fun _ => h.symm, fun he => absurd he (by omega), fun hgt => absurd hgt (by omega)⟩
    · rename_i hnlt
      split at h
      · rename_i heq
        split at h
        · simp at h
        · rw [Except.ok.injEq] at h
          refine ⟨fun hlt => absurd hlt hnlt, fun _ => ?_, fun hgt => absurd hgt (by omega)⟩
          simpa [List.headI] using h.symm
      · rename_i hne
        rw [Except.ok.injEq] at h
        exact ⟨fun hlt => absurd hlt hnlt, fun he => absurd he hne, fun _ => h.symm⟩
  · -- at least one list empty: only the strict comparisons can return
    rename_i himp
    dsimp only at h
    split at h
    · rename_i hlt
      rw [Except.ok.injEq] at h
      exact ⟨fun _ => h.symm, fun he => absurd he (by omega), fun hgt => absurd hgt (by omega)⟩
    · rename_i hnlt
      split at h
      · simp at h
      · rename_i hne
        rw [Except.ok.injEq] at h
        exact ⟨fun hlt => absurd hlt hnlt, fun he => absurd he hne, fun _ => h.symm⟩

/-- C4 (confirmed): the `vertical_asymptotes` field is exactly what the
spec's root rules prescribe: `[-b/a]` for a linear denominator with `a ≠ 0`;
for a quadratic with `a ≠ 0`, empty when the discriminant is negative and
the two quadratic-formula roots otherwise; empty for every other length. -/
theorem claim_C4 :
    (∀ a b : ℚ, a ≠ 0 → find_vertical_asymptotes [a, b] = [-b / a]) ∧
    (∀ a b c : ℚ, a ≠ 0 → b ^ 2 - 4 * a * c < 0 → find_vertical_asymptotes [a, b, c] = []) ∧
    (∀ a b c : ℚ, a ≠ 0 → 0 ≤ b ^ 2 - 4 * a * c →
      find_vertical_asymptotes [a, b, c] =
        [(-b + sqrtQ (b ^ 2 - 4 * a * c)) / (2 * a),
         (-b - sqrtQ (b ^ 2 - 4 * a * c)) / (2 * a)]) ∧
    (∀ den : List ℚ, den.length ≠ 2 → den.length ≠ 3 → find_vertical_asymptotes den = []) ∧
    (∀ (num den : List ℚ) (l : ℤ) (n : String) (F : RationalFunction),
      construct num den l n = .ok F →
        F.vertical_asymptotes = find_vertical_asymptotes den) := by
  refine ⟨?_, ?_, ?_, ?_, ?_⟩
  · intro a b ha
    simp [find_vertical_asymptotes, ha]
  · intro a b c ha hd
    simp [find_vertical_asymptotes, ha, not_le.mpr hd]
  · intro a b c ha hd
    simp [find_vertical_asymptotes, ha, ge_iff_le, hd]
  · intro den h2 h3
    rcases den with _ | ⟨a, _ | ⟨b, _ | ⟨c, _ | ⟨d, rest⟩⟩⟩⟩
    · simp [find_vertical_asymptotes]
    · simp [find_vertical_asymptotes]
    · simp at h2
    · simp at h3
    · simp [find_vertical_asymptotes]
  · intro num den l n F hc
    exact (construct_fields hc).2.2.1

unseal Rat.mul Rat.inv Rat.add Rat.sub in
theorem claim_C4_witness :
    find_vertical_asymptotes [1, 2] = [-2 / 1] ∧
    find_vertical_asymptotes [1, 0, 1] = [] ∧
    find_vertical_asymptotes [1, 0, -4] =
      [(-0 + sqrtQ ((0 : ℚ) ^ 2 - 4 * 1 * (-4))) / (2 * 1),
       (-0 - sqrtQ ((0 : ℚ) ^ 2 - 4 * 1 * (-4))) / (2 * 1)] ∧
    find_vertical_asymptotes [] = [] :=
  ⟨claim_C4.1 1 2 (by norm_num), claim_C4.2.1 1 0 1 (by norm_num) (by norm_num),
   claim_C4.2.2.1 1 0 (-4) (by norm_num) (by norm_num),
   claim_C4.2.2.2.1 [] (by decide) (by decide)⟩

/-- C5 (confirmed): for every successfully constructed function, the
`horizontal_asymptote` field is the int `0` when the numerator degree is
smaller, the float ratio of leading coefficients when the degrees are
equal, and the `none` sentinel when the numerator degree is larger. -/
theorem claim_C5 (num den : List ℚ) (l : ℤ) (n : String) (F : RationalFunction)
    (hc : construct num den l n = .ok F) :
    ((num.length : ℤ) - 1 < (den.length : ℤ) - 1 →
      F.horizontal_asymptote = some (.int 0)) ∧
    ((num.length : ℤ) - 1 = (den.length : ℤ) - 1 →
      F.horizontal_asymptote = some (.float (num.headI / den.headI))) ∧
    ((den.length : ℤ) - 1 < (num.length : ℤ) - 1 → F.horizontal_asymptote = none) :=
  find_ha_spec (construct_fields hc).2.2.2.1

unseal Rat.mul Rat.inv Rat.add Rat.sub in
theorem claim_C5_witness :
    ((⟨[1], [1, 0], 1, "w1", [0], some (.int 0), [], none⟩ :
        RationalFunction).horizontal_asymptote = some (.int 0)) ∧
    ((⟨[1, 1], [2, 1], 1, "w2", [-1 / 2], some (.float (1 / 2)), [-1], some 1⟩ :
        RationalFunction).horizontal_asymptote = some (.float ((1 : ℚ) / 2))) ∧
    ((⟨[1, 0, 1], [1, 0], 2, "w3", [0], none, [], none⟩ :
        RationalFunction).horizontal_asymptote = none) :=
  ⟨(claim_C5 [1] [1, 0] 1 "w1" _ (by decide)).1 (by decide),
   (claim_C5 [1, 1] [2, 1] 1 "w2" _ (by decide)).2.1 (by decide),
   (claim_C5 [1, 0, 1] [1, 0] 2 "w3" _ (by decide)).2.2 (by decide)⟩

unseal Rat.mul Rat.inv Rat.add Rat.sub in
/-- C6 (corrected, counterexample): on the spec's own test function
`(x-1)/(x²-4)` the cached `vertical_asymptotes` field is `[2, -2]` —
descending, not ascending.  (Only `create_questions` sorts the values.) -/
theorem claim_C6_counterexample :
    (construct [1, -1] [1, 0, -4] 2 "f(x) = (x-1)/(x^2-4)").map
        (fun F => F.vertical_asymptotes) = .ok [2, -2] ∧ ¬((2 : ℚ) ≤ -2) :=
  ⟨by decide, by decide⟩

/-- C6 (corrected, amended claim): when the `vertical_asymptotes` field
holds more than one value, the values are in descending order whenever the
quadratic denominator's leading coefficient is positive, and in ascending
order whenever it is negative. -/
theorem claim_C6_amended (num den : List ℚ) (l : ℤ) (n : String) (F : RationalFunction)
    (hc : construct num den l n = .ok F) (hlen : 1 < F.vertical_asymptotes.length) :
    (0 < den.headI →
      F.vertical_asymptotes.getD 1 0 ≤ F.vertical_asymptotes.getD 0 0) ∧
    (den.headI < 0 →
      F.vertical_asymptotes.getD 0 0 ≤ F.vertical_asymptotes.getD 1 0) := by
  have hva := (construct_fields hc).2.2.1
  rcases den with _ | ⟨a, _ | ⟨b, _ | ⟨c, _ | ⟨d, rest⟩⟩⟩⟩
  · rw [hva] at hlen
    simp [find_vertical_asymptotes] at hlen
  · rw [hva] at hlen
    simp [find_vertical_asymptotes] at hlen
  · rw [hva] at hlen
    simp only [find_vertical_asymptotes] at hlen
    split_ifs at hlen <;> simp at hlen
  · simp only [find_vertical_asymptotes] at hva
    split_ifs at hva with h1 h2
    · -- quadratic branch with two roots
      set s := sqrtQ (b ^ 2 - 4 * a * c) with hs_def
      have hs : 0 ≤ s := sqrtQ_nonneg _
      have key : ((-b + s) / (2 * a)) - ((-b - s) / (2 * a)) = s / a := by
        rw [div_sub_div_same]
        have h2s : (-b + s) - (-b - s) = 2 * s := by ring
        rw [h2s, mul_div_mul_left s a (by norm_num : (2 : ℚ) ≠ 0)]
      constructor
      · intro hpos
        have hpos' : 0 < a := by simpa [List.headI] using hpos
        have : 0 ≤ s / a := div_nonneg hs hpos'.le
        rw [hva]
        simp only [List.getD_cons_succ, List.getD_cons_zero]
        linarith [key]
      · intro hneg
        have hneg' : a < 0 := by simpa [List.headI] using hneg
        have : s / a ≤ 0 := div_nonpos_iff.mpr (Or.inl ⟨hs, hneg'.le⟩)
        rw [hva]
        simp only [List.getD_cons_succ, List.getD_cons_zero]
        linarith [key]
    · rw [hva] at hlen
      simp at hlen
    · rw [hva] at hlen
      simp at hlen
  · rw [hva] at hlen
    simp [find_vertical_asymptotes] at hlen

unseal Rat.mul Rat.inv Rat.add Rat.sub in
theorem claim_C6_witness :
    (⟨[1, -1], [1, 0, -4], 2, "w", [2, -2], some (.int 0), [1], some (1 / 4)⟩ :
        RationalFunction).vertical_asymptotes.getD 1 0 ≤
      (⟨[1, -1], [1, 0, -4], 2, "w", [2, -2], some (.int 0), [1], some (1 / 4)⟩ :
        RationalFunction).vertical_asymptotes.getD 0 0 :=
  (claim_C6_amended [1, -1] [1, 0, -4] 2 "w" _ (by decide) (by decide)).1 (by decide)

/-- C7 (confirmed): whenever the denominator's value at `x` is smaller than
`1e-10` in absolute value, `evaluate` returns an infinite sentinel chosen by
the sign of that value — never an exception or overflow — and otherwise it
returns the quotient of the two polynomial values. -/
theorem claim_C7 (f : RationalFunction) (x : ℚ) :
    (|evaluate_polynomial f.denominator x| < 1 / 10 ^ 10 →
      (0 < evaluate_polynomial f.denominator x → evaluate_scalar f x = Val.inf) ∧
      (evaluate_polynomial f.denominator x ≤ 0 → evaluate_scalar f x = Val.ninf)) ∧
    (1 / 10 ^ 10 ≤ |evaluate_polynomial f.denominator x| →
      evaluate_scalar f x =
        Val.fin (evaluate_polynomial f.numerator x / evaluate_polynomial f.denominator x)) := by
  unfold evaluate_scalar
  dsimp only
  constructor
  · intro hlt
    constructor
    · intro hpos
      rw [if_pos hlt, if_pos hpos]
    · intro hle
      rw [if_pos hlt, if_neg (not_lt.mpr hle)]
  · intro hge
    rw [if_neg (not_lt.mpr hge)]

unseal Rat.mul Rat.inv Rat.add Rat.sub in
theorem claim_C7_witness :
    (|evaluate_polynomial [(1 : ℚ) / 100000000000] 0| < 1 / 10 ^ 10 ∧
      evaluate_scalar
        (⟨[1], [(1 : ℚ) / 100000000000], 1, "w", [], none, [], none⟩ : RationalFunction)
        0 = Val.inf) ∧
    evaluate_scalar (⟨[2], [1, -1], 1, "w2", [1], some (.int 0), [], some (-2)⟩ :
        RationalFunction) 3 = Val.fin ((2 : ℚ) / 2) :=
  ⟨⟨by decide,
    ((claim_C7 ⟨[1], [(1 : ℚ) / 100000000000], 1, "w", [], none, [], none⟩ 0).1
        (by decide)).1 (by decide)⟩,
    (claim_C7 ⟨[2], [1, -1], 1, "w2", [1], some (.int 0), [], some (-2)⟩ 3).2 (by decide)⟩

/-- C9 (confirmed): `evaluate` on a finite ordered sequence returns a
sequence of the same length whose `i`-th element is the scalar evaluation of
the `i`-th input, and on a scalar it returns a scalar. -/
theorem claim_C9 (f : RationalFunction) (xs : List ℚ) (i : ℕ) (x : ℚ) :
    f.evaluate (.vec xs) = .vec (xs.map fun xi => evaluate_scalar f xi) ∧
    (xs.map fun xi => evaluate_scalar f xi).length = xs.length ∧
    ((xs.map fun xi => evaluate_scalar f xi)[i]? =
      (xs[i]?).map fun xi => evaluate_scalar f xi) ∧
    f.evaluate (.scalar x) = .scalar (evaluate_scalar f x) := by
  refine ⟨rfl, List.length_map xs _, ?_, rfl⟩
  exact List.getElem?_map _ xs i

/-- C10 (confirmed): at a point where the denominator polynomial evaluates
to exactly `0`, `evaluate` returns negative infinity (the positive branch
requires a strictly positive denominator value) — not an exception and not
positive infinity. -/
theorem claim_C10 (f : RationalFunction) (x : ℚ)
    (h : evaluate_polynomial f.denominator x = 0) :
    evaluate_scalar f x = Val.ninf := by
  unfold evaluate_scalar
  dsimp only
  rw [h]
  rw [if_pos (by norm_num), if_neg (by norm_num)]

unseal Rat.mul Rat.inv Rat.add Rat.sub in
theorem claim_C10_witness :
    evaluate_polynomial ([1, 0] : List ℚ) 0 = 0 ∧
    evaluate_scalar (⟨[1], [1, 0], 1, "w", [0], some (.int 0), [], none⟩ :
        RationalFunction) 0 = Val.ninf :=
  ⟨by decide,
   claim_C10 ⟨[1], [1, 0], 1, "w", [0], some (.int 0), [], none⟩ 0 (by decide)⟩

unseal Rat.mul Rat.inv Rat.add Rat.sub in
/-- C3 (corrected, counterexample): the denominator `[0, 1]` is not the
all-zero sequence, yet construction raises `ZeroDivisionError` — the
equal-degree branch of `find_horizontal_asymptote` divides by the zero
leading coefficient. -/
theorem claim_C3_counterexample :
    construct [1, 2] [0, 1] 1 "f" = .error .zeroDivisionError ∧
      ¬(∀ c ∈ ([0, 1] : List ℚ), c = 0) :=
  ⟨by decide, by decide⟩

/-- C3 (corrected, amended claim): construction (and hence every derived
field) raises no exception provided the numerator is nonempty and, when the
numerator and denominator have equal length, the denominator's leading
coefficient is nonzero; all remaining "cannot determine" cases are `none`
or empty values, and `evaluate`/`format_polynomial`/`get_equation` are
total by construction. -/
theorem claim_C3_amended (num den : List ℚ) (l : ℤ) (n : String)
    (hnum : num ≠ []) (hden : den ≠ [])
    (hlead : num.length = den.length → den.headI ≠ 0) :
    (construct num den l n).isOk = true := by
  obtain ⟨o1, h1⟩ : ∃ o, find_horizontal_asymptote num den = .ok o := by
    rcases num with _ | ⟨n0, nt⟩
    · exact absurd rfl hnum
    rcases den with _ | ⟨d0, dt⟩
    · exact absurd rfl hden
    unfold find_horizontal_asymptote
    dsimp only
    by_cases hlt : ((n0 :: nt).length : ℤ) - 1 < ((d0 :: dt).length : ℤ) - 1
    · rw [if_pos hlt]
      exact ⟨_, rfl⟩
    · rw [if_neg hlt]
      by_cases heq : ((n0 :: nt).length : ℤ) - 1 = ((d0 :: dt).length : ℤ) - 1
      · rw [if_pos heq]
        have hlen : (n0 :: nt).length = (d0 :: dt).length := by omega
        have hd0 : d0 ≠ 0 := by simpa [List.headI] using hlead hlen
        rw [if_neg hd0]
        exact ⟨_, rfl⟩
      · rw [if_neg heq]
        exact ⟨_, rfl⟩
  obtain ⟨o2, h2⟩ : ∃ o, find_y_intercept num den = .ok o := by
    unfold find_y_intercept
    obtain ⟨dl, hdl⟩ :=
      Option.isSome_iff_exists.mp
        (Option.isSome_iff_exists.mpr ⟨den.getLast hden, List.getLast?_eq_getLast den hden⟩)
    rw [hdl]
    dsimp only
    by_cases hz : dl ≠ 0
    · rw [if_pos hz]
      obtain ⟨nl, hnl⟩ :=
        Option.isSome_iff_exists.mp
          (Option.isSome_iff_exists.mpr ⟨num.getLast hnum, List.getLast?_eq_getLast num hnum⟩)
      rw [hnl]
      exact ⟨_, rfl⟩
    · rw [if_neg hz]
      exact ⟨_, rfl⟩
  unfold construct
  rw [h1]
  simp [Bind.bind, Except.bind, h2, Except.isOk, Except.toBool]

unseal Rat.mul Rat.inv Rat.add Rat.sub in
theorem claim_C3_witness : (construct [1] [1, 0] 1 "w").isOk = true :=
  claim_C3_amended [1] [1, 0] 1 "w" (by decide) (by decide) (by decide)

unseal Rat.mul Rat.inv Rat.add Rat.sub in
/-- C2 (corrected, counterexample): for denominator `x² - 2x + 1` (double
root, one distinct vertical-asymptote value) the vertical-asymptote
question is still worth 150 points — the code distinguishes the branches by
raw list length, not by number of distinct values. -/
theorem claim_C2_counterexample :
    (construct [1] [1, -2, 1] 2 "f(x) = 1/(x^2-2x+1)").map
        (fun F => (F.vertical_asymptotes.dedup.length,
                   (create_questions F).map fun q => (q.type, q.points))) =
      .ok (1, [("vertical_asymptote", 150), ("horizontal_asymptote", 100)]) := by
  decide

/-- C2 (corrected, amended claim): a vertical-asymptote question is worth
150 points exactly when the raw `vertical_asymptotes` list has two entries
(equal or not) and 100 exactly when it has one entry; horizontal-asymptote
and x-intercept questions are always worth 100. -/
theorem claim_C2_amended (num den : List ℚ) (l : ℤ) (n : String)
    (F : RationalFunction) (q : Question)
    (hc : construct num den l n = .ok F) (hq : q ∈ create_questions F) :
    (q.type = "vertical_asymptote" →
      (q.points = 150 ↔ F.vertical_asymptotes.length = 2) ∧
      (q.points = 100 ↔ F.vertical_asymptotes.length = 1)) ∧
    ((q.type = "horizontal_asymptote" ∨ q.type = "x_intercept") → q.points = 100) := by
  rcases create_questions_cases hq with
    ⟨va, rest, hvas, hlen1, rfl⟩ | ⟨v1, v2, hsort, hne, hlen, rfl⟩ |
    ⟨h, hha, rfl⟩ | ⟨xi, rest, hxi, rfl⟩
  · refine ⟨fun _ => ?_, fun ht => ?_⟩
    · rw [hlen1]
      exact ⟨⟨fun h => absurd (show (100 : ℕ) = 150 from h) (by decide),
              fun h => absurd h (by decide)⟩,
             ⟨fun _ => rfl, fun _ => rfl⟩⟩
    · rcases ht with ht | ht
      · exact absurd (show "vertical_asymptote" = "horizontal_asymptote" from ht) (by decide)
      · exact absurd (show "vertical_asymptote" = "x_intercept" from ht) (by decide)
  · have hlen2 : F.vertical_asymptotes.length = 2 := by
      have := congrArg List.length hsort
      rwa [List.length_insertionSort] at this
    refine ⟨fun _ => ?_, fun ht => ?_⟩
    · rw [hlen2]
      exact ⟨⟨fun _ => rfl, fun _ => rfl⟩,
             ⟨fun h => absurd (show (150 : ℕ) = 100 from h) (by decide),
              fun h => absurd h (by decide)⟩⟩
    · rcases ht with ht | ht
      · exact absurd (show "vertical_asymptote" = "horizontal_asymptote" from ht) (by decide)
      · exact absurd (show "vertical_asymptote" = "x_intercept" from ht) (by decide)
  · exact ⟨fun ht =>
      absurd (show "horizontal_asymptote" = "vertical_asymptote" from ht) (by decide),
      fun _ => rfl⟩
  · exact ⟨fun ht =>
      absurd (show "x_intercept" = "vertical_asymptote" from ht) (by decide),
      fun _ => rfl⟩

/-- The function `1/(x+1)` exactly as the engine constructs it (used to
instantiate theorems at a concrete input). -/
def exF1 : RationalFunction :=
  ⟨[1], [1, 1], 1, "g", [-1], some (.int 0), [], some 1⟩

unseal Rat.mul Rat.inv Rat.add Rat.sub in
theorem claim_C2_witness :
    ((va_single_question exF1 (-1)).points = 150 ↔
      exF1.vertical_asymptotes.length = 2) ∧
    ((va_single_question exF1 (-1)).points = 100 ↔
      exF1.vertical_asymptotes.length = 1) :=
  (claim_C2_amended [1] [1, 1] 1 "g" exF1 (va_single_question exF1 (-1))
    (by decide) (by decide)).1 rfl

unseal Rat.mul Rat.inv Rat.add Rat.sub in
/-- C8 (confirmed): `format_polynomial` returns the literal `"0"` whenever
every coefficient is zero, and renders the spec's examples exactly —
omitting the zero term of `[1, 0, 1]` and choosing the separator by sign. -/
theorem claim_C8 :
    (∀ coeffs : List ℚ, (∀ c ∈ coeffs, c = 0) → format_polynomial coeffs = "0") ∧
    format_polynomial [1, 0, 1] = "x^2 + 1" ∧
    format_polynomial [1, -1] = "x - 1" ∧
    format_polynomial [0, 0] = "0" := by
  refine ⟨?_, by decide, by decide, by decide⟩
  intro coeffs hz
  unfold format_polynomial
  rcases coeffs with _ | ⟨c0, cs⟩
  · rw [if_pos rfl]
  · rw [if_neg (by simp)]
    dsimp only
    have hterms :
        (c0 :: cs).enum.filterMap (fun p =>
          if p.2 = 0 then none
          else
            if (c0 :: cs).length - 1 - p.1 = 0 then some (coefStr p.2)
            else
              if (c0 :: cs).length - 1 - p.1 = 1 then
                some (if p.2 = 1 then "x" else if p.2 = -1 then "-x" else coefStr p.2 ++ "x")
              else
                some (if p.2 = 1 then "x^" ++ String.mk (natChars ((c0 :: cs).length - 1 - p.1))
                      else if p.2 = -1 then
                        "-x^" ++ String.mk (natChars ((c0 :: cs).length - 1 - p.1))
                      else coefStr p.2 ++ "x^" ++
                        String.mk (natChars ((c0 :: cs).length - 1 - p.1)))) = [] := by
      rw [List.filterMap_eq_nil_iff]
      intro p hp
      have hc : p.2 ∈ (c0 :: cs) := by
        rw [← List.enum_map_snd (c0 :: cs)]
        exact List.mem_map_of_mem Prod.snd hp
      rw [if_pos (hz p.2 hc)]
    rw [hterms]

unseal Rat.mul Rat.inv Rat.add Rat.sub in
theorem claim_C8_witness : format_polynomial [0, 0, 0] = "0" :=
  claim_C8.1 [0, 0, 0] (by decide)

/-! ### Option-string inequalities for the question invariant -/

theorem prefix_float_ne (p : String) {v w : ℚ} (h : v ≠ w) :
    p ++ pyFloatStr v ≠ p ++ pyFloatStr w :=
  fun e => h (pyFloatStr_inj (str_append_left_cancel e))

theorem append_ne_lit {p lit : String} (s : String) {c₁ c₂ : Char} {t₁ t₂ : List Char}
    (h₁ : p.data = c₁ :: t₁) (h₂ : lit.data = c₂ :: t₂) (h : c₁ ≠ c₂) :
    p ++ s ≠ lit :=
  str_head_ne (by rw [str_data_append, h₁]; rfl) h₂ h

theorem xy_ne (s t : String) : ("x = " ++ s) ≠ ("y = " ++ t) :=
  str_head_ne rfl rfl (by decide)

theorem y_float_ne_y0 (r : ℚ) : ("y = " ++ pyFloatStr r) ≠ "y = 0" := fun e =>
  pyFloatStr_ne_zero_str r (str_append_left_cancel (e.trans (by decide)))

theorem x_float_ne_x0 (r : ℚ) : ("x = " ++ pyFloatStr r) ≠ "x = 0" := fun e =>
  pyFloatStr_ne_zero_str r (str_append_left_cancel (e.trans (by decide)))

theorem comb_ne_s1 (v1 v2 : ℚ) :
    ("x = " ++ pyFloatStr v1 ++ " and x = " ++ pyFloatStr v2) ≠ ("x = " ++ pyFloatStr v1) := by
  apply str_len_ne
  simp only [str_data_append, List.length_append, pyFloatStr_data]
  have := floatChars_length v2
  omega

theorem comb_ne_s2 (v1 v2 : ℚ) :
    ("x = " ++ pyFloatStr v1 ++ " and x = " ++ pyFloatStr v2) ≠ ("x = " ++ pyFloatStr v2) := by
  apply str_len_ne
  simp only [str_data_append, List.length_append, pyFloatStr_data]
  have h1 := floatChars_length v1
  have h9 : (" and x = " : String).data.length = 9 := by decide
  omega

unseal Rat.mul Rat.inv Rat.add Rat.sub in
/-- C1 (corrected, counterexample): for `f(x) = 1/x` the horizontal
asymptote is the int `0`, so the horizontal-asymptote question's options
are `["y = 0", "y = 1", "y = 0", "No horizontal asymptote"]`: the correct
answer occurs twice and the 4 options are not distinct. -/
theorem claim_C1_counterexample :
    (construct [1] [1, 0] 1 "f(x) = 1/x").map
        (fun F => (create_questions F).map fun q =>
          (q.options.length, q.options.count q.correct_answer)) =
      .ok [(4, 1), (4, 2)] := by
  decide

/-- C1 (corrected, amended claim): for every generated question except the
two defective shapes — the horizontal-asymptote question of a function
whose horizontal asymptote is the int `0` (where `"y = 0"` occurs twice),
and the two-asymptote question of a double root (where the two single-root
distractors coincide) — the options are 4 distinct strings containing
`correct_answer` exactly once. -/
theorem claim_C1_amended (num den : List ℚ) (l : ℤ) (n : String)
    (F : RationalFunction) (q : Question)
    (hc : construct num den l n = .ok F) (hq : q ∈ create_questions F)
    (hint : q.type = "horizontal_asymptote" → F.horizontal_asymptote ≠ some (.int 0))
    (hnd : q.type = "vertical_asymptote" → F.vertical_asymptotes.Nodup) :
    q.options.length = 4 ∧ q.correct_answer ∈ q.options ∧
      q.options.count q.correct_answer = 1 ∧ q.options.Nodup := by
  rcases create_questions_cases hq with
    ⟨va, rest, hvas, hlen1, rfl⟩ | ⟨v1, v2, hsort, hne, hlen, rfl⟩ |
    ⟨h, hha, rfl⟩ | ⟨xi, rest, hxi, rfl⟩
  · -- single vertical asymptote
    exact count_options _ _ _ _
      (prefix_float_ne "x = " (ne_of_lt (lt_add_one va)))
      (xy_ne _ _)
      (append_ne_lit _ rfl rfl (by decide))
      (xy_ne _ _)
      (append_ne_lit _ rfl rfl (by decide))
      (append_ne_lit _ rfl rfl (by decide))
  · -- two distinct vertical asymptotes
    have hperm := List.perm_insertionSort (fun x1 x2 : ℚ => x1 ≤ x2) F.vertical_asymptotes
    rw [hsort] at hperm
    have hnodup : ([v1, v2] : List ℚ).Nodup := hperm.nodup_iff.mpr (hnd rfl)
    have h12 : v1 ≠ v2 := by simpa using hnodup
    exact count_options _ _ _ _
      (comb_ne_s1 v1 v2)
      (comb_ne_s2 v1 v2)
      (str_head_ne rfl rfl (by decide))
      (prefix_float_ne "x = " h12)
      (append_ne_lit _ rfl rfl (by decide))
      (append_ne_lit _ rfl rfl (by decide))
  · -- horizontal asymptote (not the int 0)
    rcases find_ha_shape (construct_fields hc).2.2.2.1 with h0 | h0 | ⟨r, h0⟩
    · rw [hha] at h0
      simp at h0
    · exact absurd h0 (hint rfl)
    · rw [hha] at h0
      have : h = .float r := by simpa using h0
      subst this
      exact count_options _ _ _ _
        (prefix_float_ne "y = " (ne_of_lt (lt_add_one r)))
        (y_float_ne_y0 r)
        (append_ne_lit _ rfl rfl (by decide))
        (y_float_ne_y0 (r + 1))
        (append_ne_lit _ rfl rfl (by decide))
        (by decide)
  · -- x-intercept
    exact count_options _ _ _ _
      (prefix_float_ne "x = " (ne_of_lt (lt_add_one xi)))
      (x_float_ne_x0 xi)
      (append_ne_lit _ rfl rfl (by decide))
      (x_float_ne_x0 (xi + 1))
      (append_ne_lit _ rfl rfl (by decide))
      (by decide)

unseal Rat.mul Rat.inv Rat.add Rat.sub in
theorem claim_C1_witness :
    (va_single_question exF1 (-1)).options.length = 4 ∧
    (va_single_question exF1 (-1)).correct_answer ∈ (va_single_question exF1 (-1)).options ∧
    (va_single_question exF1 (-1)).options.count (va_single_question exF1 (-1)).correct_answer = 1 ∧
    (va_single_question exF1 (-1)).options.Nodup :=
  claim_C1_amended [1] [1, 1] 1 "g" exF1 (va_single_question exF1 (-1))
    (by decide) (by decide) (by decide) (by decide)
